import Mathlib

/-!
Verification of the sky-city-pdf-generator batch scripts
(`services/export_statement.py`, `services/send_no_play_emails.py`,
`services/update_is_email_no_play_statement.py`).

The Python sources are shallowly embedded below.  Strings are Lean
`String`s manipulated through their underlying `List Char` (which matches
Python's per-character semantics and keeps every definition kernel
computable).  The AES-GCM primitive of the `cryptography` library and the
JSON parser are external collaborators: they are passed in as explicit
function parameters (an oracle of type `AesOracle`, resp. a parser
`String → Option α`), so every theorem quantifies over their possible
behaviours.  Raising a Python exception that escapes a function is
modelled by `Except Unit`; a `try/except` block that swallows every
exception becomes a total function.
-/

namespace SkyCity

/-- Python `str.split(sep)` for a one-character separator, on the
character list of a string: always returns at least one (possibly empty)
part. -/
def pySplitChar (c : Char) (l : List Char) : List (List Char) :=
  match l with
  | [] => [[]]
  | x :: xs =>
    match pySplitChar c xs with
    | [] => [[]]
    | h :: t => if x = c then [] :: h :: t else (x :: h) :: t

/-- The whitespace characters stripped by Python's `str.strip()` (ASCII
subset; exotic Unicode whitespace is not modelled). -/
def isPyWhitespace (c : Char) : Bool :=
  c = ' ' || c = '\t' || c = '\n' || c = '\r' || c = '\x0b' || c = '\x0c'

/-- Python `str.strip()`: drop whitespace from both ends. -/
def pyStrip (l : List Char) : List Char :=
  ((l.dropWhile isPyWhitespace).reverse.dropWhile isPyWhitespace).reverse

/-- Python `str.startswith`. -/
def pyStartsWith (s pre : String) : Bool :=
  pre.data.isPrefixOf s.data

/-- Python `str.endswith`. -/
def pyEndsWith (s suf : String) : Bool :=
  suf.data.isSuffixOf s.data

/-- Value of a single hexadecimal digit, if any. -/
def hexVal? (c : Char) : Option Nat :=
  if '0' ≤ c && c ≤ '9' then some (c.toNat - 48)
  else if 'a' ≤ c && c ≤ 'f' then some (c.toNat - 87)
  else if 'A' ≤ c && c ≤ 'F' then some (c.toNat - 55)
  else none

/-- Python `bytes.fromhex` on a character list: an even number of hex
digits, two digits per byte; anything else fails.  (The CPython extension
that skips spaces between bytes is not modelled.) -/
def hexBytes? (l : List Char) : Option (List Nat) :=
  match l with
  | [] => some []
  | [_] => none
  | a :: b :: rest =>
    match hexVal? a, hexVal? b, hexBytes? rest with
    | some x, some y, some bs => some ((16 * x + y) :: bs)
    | _, _, _ => none

/-- `bytes.fromhex` on a string. -/
def hexToBytes? (s : String) : Option (List Nat) :=
  hexBytes? s.data

/-!  ### The identifier codec (`get_encryption_key`, `decrypt_account`,
`decrypt_json`), identical in all three scripts. -/

/-- Behaviour of the AES-GCM library call
`AESGCM(key).decrypt(iv, ct_with_tag, None)` followed by
`.decode('utf-8')`: given key bytes, iv bytes and ciphertext-plus-tag
bytes it either yields a plaintext string or fails (auth-tag mismatch,
truncation, bad UTF-8, ...).  It is an external primitive, so the
theorems quantify over it. -/
abbrev AesOracle := List Nat → List Nat → List Nat → Option String

/-- Embedding of `get_encryption_key` (src/services/export_statement.py
lines 104-111, identical in the other two scripts).  `envKey` is the
value of the `ENCRYPTION_KEY` environment variable.  `bytes.fromhex` on a
64-character non-hex value raises, which no caller catches at this point:
that is the `.error` case. -/
def get_encryption_key (envKey : Option String) : Except Unit (Option (List Nat)) :=
  match envKey with
  | none => .ok none
  | some k =>
    if k = "" then .ok none
    else if k.length ≠ 64 then .ok none
    else
      match hexToBytes? k with
      | some bs => .ok (some bs)
      | none => .error ()

/-- The key bytes `get_encryption_key` yields when it does not raise. -/
def keyBytesOf (envKey : Option String) : Option (List Nat) :=
  match envKey with
  | none => none
  | some k =>
    if k = "" then none
    else if k.length ≠ 64 then none
    else hexToBytes? k

/-- The configured key does not make `get_encryption_key` raise: it is
absent, empty, of length other than 64, or 64 valid hex characters. -/
def keyOk (envKey : Option String) : Prop :=
  ∀ k, envKey = some k → k ≠ "" → k.length = 64 → (hexToBytes? k).isSome

theorem get_encryption_key_of_keyOk (envKey : Option String) (h : keyOk envKey) :
    get_encryption_key envKey = .ok (keyBytesOf envKey) := by
  match envKey with
  | none => rfl
  | some k =>
    simp only [get_encryption_key, keyBytesOf]
    by_cases hk : k = ""
    · simp [hk]
    · by_cases hl : k.length = 64
      · have := h k rfl hk hl
        simp only [if_neg hk, hl]
        cases hx : hexToBytes? k with
        | none => rw [hx] at this; simp at this
        | some bs => simp
      · simp [hk, hl]

/-- Splitting and hex-decoding the envelope body after the prefix:
`parts = envelope[prefix_length:].split(':')`, exactly three parts, each
converted by `bytes.fromhex` (lines 139-146). -/
def parseEnvBody (plen : Nat) (s : String) : Option (List Nat × List Nat × List Nat) :=
  match pySplitChar ':' (s.data.drop plen) with
  | [i, t, c] =>
    match hexBytes? i, hexBytes? t, hexBytes? c with
    | some iv, some tag, some ct => some (iv, tag, ct)
    | _, _, _ => none
  | _ => none

/-- `prefix_length = 5 if is_deterministic_encrypted else 4` (line 138). -/
def prefixLenOf (s : String) : Nat :=
  if pyStartsWith s "DENC:" then 5 else 4

/-- The `try:` block of `decrypt_account` (lines 136-157): every failure
(wrong part count, invalid hex, cipher failure) is caught and the
original envelope is returned.  The tag is appended after the ciphertext
before calling the cipher (`ciphertext_with_tag = encrypted_data +
auth_tag`, line 149). -/
def tryDecryptBody (o : AesOracle) (key : List Nat) (plen : Nat) (s : String) : String :=
  match parseEnvBody plen s with
  | none => s
  | some (iv, tag, ct) =>
    match o key iv (ct ++ tag) with
    | none => s
    | some pt => pt

/-- Embedding of `decrypt_account` (src/services/export_statement.py
lines 114-157, identical in the other two scripts).  The `.error` case is
the uncaught exception escaping from `get_encryption_key`, which the code
calls before entering its `try` block. -/
def decrypt_account (o : AesOracle) (envKey : Option String) (s : String) :
    Except Unit String :=
  if s = "" then .ok s
  else if !(pyStartsWith s "ENC:") && !(pyStartsWith s "DENC:") then .ok s
  else
    match get_encryption_key envKey with
    | .error e => .error e
    | .ok none => .ok s
    | .ok (some key) => .ok (tryDecryptBody o key (prefixLenOf s) s)

/-- `decrypt_account` as the total function it is whenever
`get_encryption_key` does not raise. -/
def decryptWithKey (o : AesOracle) (key? : Option (List Nat)) (s : String) : String :=
  if s = "" then s
  else if !(pyStartsWith s "ENC:") && !(pyStartsWith s "DENC:") then s
  else
    match key? with
    | none => s
    | some key => tryDecryptBody o key (prefixLenOf s) s

theorem decrypt_account_of_keyOk (o : AesOracle) (envKey : Option String)
    (h : keyOk envKey) (s : String) :
    decrypt_account o envKey s = .ok (decryptWithKey o (keyBytesOf envKey) s) := by
  simp only [decrypt_account, decryptWithKey, get_encryption_key_of_keyOk envKey h]
  by_cases h1 : s = ""
  · simp [h1]
  · simp only [if_neg h1]
    by_cases h2 : (!(pyStartsWith s "ENC:") && !(pyStartsWith s "DENC:")) = true
    · simp [h2]
    · simp only [h2, Bool.false_eq_true, if_false]
      cases keyBytesOf envKey <;> rfl

/-- The `try:` block of `decrypt_json` (send script lines 179-198):
split the body after `ENC:`, hex-decode, decrypt, parse the plaintext;
every failure yields `none`. -/
def tryDecryptJson {α : Type} (jp : String → Option α) (o : AesOracle)
    (key : List Nat) (s : String) : Option α :=
  match parseEnvBody 4 s with
  | none => none
  | some (iv, tag, ct) =>
    match o key iv (ct ++ tag) with
    | none => none
    | some pt => jp pt

/-- Embedding of `decrypt_json` (src/services/send_no_play_emails.py
lines 160-198).  `jp` is the external JSON parser (`json.loads`, with
parse failure as `none`); it is applied directly to the raw value when
the `ENC:` prefix is missing (lines 169-173), and to the decrypted
plaintext otherwise; every failure inside the `try` yields `none`. -/
def decrypt_json {α : Type} (jp : String → Option α) (o : AesOracle)
    (envKey : Option String) (s : String) : Except Unit (Option α) :=
  if s = "" then .ok none
  else if !(pyStartsWith s "ENC:") then .ok (jp s)
  else
    match get_encryption_key envKey with
    | .error e => .error e
    | .ok none => .ok none
    | .ok (some key) => .ok (tryDecryptJson jp o key s)

/-- Embedding of `normalize_account` (export/send scripts, lines
160-169/225-234) with the decryption step abstracted into `dec`: strip
surrounding whitespace, then remove every space character.  The scripts
instantiate `dec` with `decrypt_account`; under a well-formed key
configuration that is `decryptWithKey o (keyBytesOf envKey)`. -/
def normalizeWith (dec : String → String) (a : String) : String :=
  ⟨(pyStrip (dec a).data).filter (fun c => c ≠ ' ')⟩

/-- `normalize_account` with the raising decryptor threaded through. -/
def normalize_account (o : AesOracle) (envKey : Option String) (a : String) :
    Except Unit String :=
  match decrypt_account o envKey a with
  | .error e => .error e
  | .ok d => .ok ⟨(pyStrip d.data).filter (fun c => c ≠ ' ')⟩

theorem normalize_account_of_keyOk (o : AesOracle) (envKey : Option String)
    (h : keyOk envKey) (a : String) :
    normalize_account o envKey a =
      .ok (normalizeWith (decryptWithKey o (keyBytesOf envKey)) a) := by
  simp [normalize_account, decrypt_account_of_keyOk o envKey h, normalizeWith]

/-!  ### Decimal rendering of integers (Python f-string `{n}` for a
non-negative int), character by character. -/

/-- The character of a decimal digit. -/
def digitChar : Nat → Char
  | 0 => '0' | 1 => '1' | 2 => '2' | 3 => '3' | 4 => '4'
  | 5 => '5' | 6 => '6' | 7 => '7' | 8 => '8' | 9 => '9'
  | _ => '*'

/-- Fuel-driven decimal printer (structural recursion so that the kernel
can evaluate it). -/
def natCharsAux : Nat → Nat → List Char
  | 0, _ => []
  | fuel + 1, n =>
    if n < 10 then [digitChar n]
    else natCharsAux fuel (n / 10) ++ [digitChar (n % 10)]

/-- The decimal digits of `n`, most significant first. -/
def natChars (n : Nat) : List Char :=
  natCharsAux (n + 1) n

/-- Python `str(n)` for a non-negative int. -/
def natStr (n : Nat) : String :=
  ⟨natChars n⟩

theorem natCharsAux_stable (n : Nat) :
    ∀ f g, n < f → n < g → natCharsAux f n = natCharsAux g n := by
  induction n using Nat.strong_induction_on with
  | _ n ih =>
    intro f g hf hg
    match f, g with
    | f + 1, g + 1 =>
      by_cases h : n < 10
      · simp [natCharsAux, h]
      · have hdiv : n / 10 < n := Nat.div_lt_self (by omega) (by omega)
        simp only [natCharsAux, if_neg h]
        rw [ih (n / 10) hdiv f g (by omega) (by omega)]

theorem natChars_eq (n : Nat) :
    natChars n = if n < 10 then [digitChar n]
                 else natChars (n / 10) ++ [digitChar (n % 10)] := by
  show natCharsAux (n + 1) n = _
  by_cases h : n < 10
  · simp [natCharsAux, h]
  · have hdiv : n / 10 < n := Nat.div_lt_self (by omega) (by omega)
    simp only [natCharsAux, if_neg h]
    rw [natCharsAux_stable (n / 10) n (n / 10 + 1) (by omega) (by omega)]
    rfl

theorem natChars_ne_nil (n : Nat) : natChars n ≠ [] := by
  rw [natChars_eq]
  by_cases h : n < 10 <;> simp [h]

theorem digitChar_inj : ∀ a, a < 10 → ∀ b, b < 10 → digitChar a = digitChar b → a = b := by
  decide

theorem digitChar_digit : ∀ a, a < 10 →
    digitChar a ≠ '_' ∧ digitChar a ≠ '-' ∧ digitChar a ≠ ':' ∧ digitChar a ≠ '/' := by
  decide

theorem natChars_mem (n : Nat) : ∀ c ∈ natChars n, ∃ d, d < 10 ∧ c = digitChar d := by
  induction n using Nat.strong_induction_on with
  | _ n ih =>
    intro c hc
    rw [natChars_eq] at hc
    by_cases h : n < 10
    · rw [if_pos h] at hc
      simp only [List.mem_singleton] at hc
      exact ⟨n, h, hc⟩
    · rw [if_neg h] at hc
      rcases List.mem_append.mp hc with h1 | h2
      · exact ih (n / 10) (Nat.div_lt_self (by omega) (by omega)) c h1
      · simp only [List.mem_singleton] at h2
        exact ⟨n % 10, Nat.mod_lt _ (by omega), h2⟩

theorem natChars_no_underscore (n : Nat) : '_' ∉ natChars n := by
  intro h
  rcases natChars_mem n _ h with ⟨d, hd, he⟩
  exact (digitChar_digit d hd).1 he.symm

theorem natChars_no_dash (n : Nat) : '-' ∉ natChars n := by
  intro h
  rcases natChars_mem n _ h with ⟨d, hd, he⟩
  exact (digitChar_digit d hd).2.1 he.symm

theorem natChars_inj : ∀ n m, natChars n = natChars m → n = m := by
  intro n
  induction n using Nat.strong_induction_on with
  | _ n ih =>
    intro m h
    rw [natChars_eq n, natChars_eq m] at h
    by_cases hn : n < 10 <;> by_cases hm : m < 10
    · rw [if_pos hn, if_pos hm] at h
      simp only [List.cons.injEq] at h
      exact digitChar_inj n hn m hm h.1
    · rw [if_pos hn, if_neg hm] at h
      have := congrArg List.length h
      simp only [List.length_singleton, List.length_append] at this
      have h0 := natChars_ne_nil (m / 10)
      cases hx : natChars (m / 10) with
      | nil => exact absurd hx h0
      | cons a l => rw [hx] at this; simp at this
    · rw [if_neg hn, if_pos hm] at h
      have := congrArg List.length h
      simp only [List.length_singleton, List.length_append] at this
      have h0 := natChars_ne_nil (n / 10)
      cases hx : natChars (n / 10) with
      | nil => exact absurd hx h0
      | cons a l => rw [hx] at this; simp at this
    · rw [if_neg hn, if_neg hm] at h
      have h2 := congrArg List.reverse h
      simp only [List.reverse_append, List.reverse_singleton, List.singleton_append,
        List.cons.injEq] at h2
      have hmod : n % 10 = m % 10 :=
        digitChar_inj _ (Nat.mod_lt _ (by omega)) _ (Nat.mod_lt _ (by omega)) h2.1
      have hrev : natChars (n / 10) = natChars (m / 10) :=
        List.reverse_injective h2.2
      have hdivlt : n / 10 < n := Nat.div_lt_self (by omega) (by omega)
      have hdiv := ih (n / 10) hdivlt (m / 10) hrev
      omega

/-!  ### Account sanitization and artifact paths (`get_expected_pdf_path`,
the `skip_existing` scan of `export_statements_from_batch`). -/

/-- A character kept by `re.sub(r'[^a-zA-Z0-9_-]', '', account)`. -/
def isAllowedChar (c : Char) : Bool :=
  ('A' ≤ c && c ≤ 'Z') || ('a' ≤ c && c ≤ 'z') || ('0' ≤ c && c ≤ '9') ||
    c = '_' || c = '-'

/-- `re.sub(r'[^a-zA-Z0-9_-]', '', account) or 'member'` (export script
lines 180, 212, 420, 484). -/
def sanitizeChars (account : String) : List Char :=
  match account.data.filter isAllowedChar with
  | [] => "member".data
  | l => l

def sanitize_account (account : String) : String :=
  ⟨sanitizeChars account⟩

/-- Embedding of `get_expected_pdf_path` (export script lines 172-183).
A `pathlib.Path` is modelled as its list of components; equality of
`Path`s is equality of components. -/
def get_expected_pdf_path (account : String) (quarter year : Nat)
    (uploads_dir : String) : List String :=
  [uploads_dir,
   "q" ++ natStr quarter ++ "-" ++ natStr year,
   "Statement_Q" ++ natStr quarter ++ "_" ++ natStr year ++ "_" ++
     sanitize_account account ++ ".pdf"]

/-- The filename component of the expected path. -/
def expectedFilename (quarter year : Nat) (account : String) : String :=
  "Statement_Q" ++ natStr quarter ++ "_" ++ natStr year ++ "_" ++
    sanitize_account account ++ ".pdf"

/-- The glob `Statement_Q*.pdf` used when scanning the current quarter
folder (export script line 397). -/
def globStatementPdf (f : String) : Bool :=
  pyStartsWith f "Statement_Q" && pyEndsWith f ".pdf" && decide (15 ≤ f.length)

/-- Extracting the account from one scanned filename (export script lines
402-409): take the stem (drop the `.pdf` extension), split on `_`, and
when there are at least 4 parts record the last one. -/
def accountFromFilename (f : String) : Option String :=
  if 4 ≤ (pySplitChar '_' (f.data.take (f.data.length - 4))).length then
    some ⟨(pySplitChar '_' (f.data.take (f.data.length - 4))).getLastD []⟩
  else none

/-- The set of sanitized accounts with an existing PDF, built from the
listing of the current quarter folder (export script lines 394-409).
Modelled as a list with membership. -/
def scanExisting (files : List String) : List String :=
  (files.filter globStatementPdf).filterMap accountFromFilename

/-!  ### Generic facts about `pySplitChar`. -/

theorem pySplitChar_ne_nil (c : Char) (l : List Char) : pySplitChar c l ≠ [] := by
  match l with
  | [] => simp [pySplitChar]
  | x :: xs =>
    simp only [pySplitChar]
    match h : pySplitChar c xs with
    | [] => simp
    | h' :: t => by_cases hx : x = c <;> simp [hx]

theorem pySplitChar_no_sep (c : Char) (l : List Char) (h : c ∉ l) :
    pySplitChar c l = [l] := by
  induction l with
  | nil => rfl
  | cons x xs ih =>
    have hx : x ≠ c := fun he => h (he ▸ List.mem_cons_self x xs)
    have hxs : c ∉ xs := fun hm => h (List.mem_cons_of_mem x hm)
    simp only [pySplitChar, ih hxs, if_neg hx]

theorem pySplitChar_append_cons (c : Char) (a b : List Char) (h : c ∉ a) :
    pySplitChar c (a ++ c :: b) = a :: pySplitChar c b := by
  induction a with
  | nil =>
    simp only [List.nil_append, pySplitChar]
    match hb : pySplitChar c b with
    | [] => exact absurd hb (pySplitChar_ne_nil c b)
    | h' :: t => simp
  | cons x xs ih =>
    have hx : x ≠ c := fun he => h (he ▸ List.mem_cons_self x xs)
    have hxs : c ∉ xs := fun hm => h (List.mem_cons_of_mem x hm)
    simp only [List.cons_append, pySplitChar, List.append_eq, ih hxs, if_neg hx]

/-- Cancellation around a single separator occurrence: if neither prefix
contains the separator, equal concatenations force equal pieces. -/
theorem sep_split (c : Char) :
    ∀ (a a' b b' : List Char), c ∉ a → c ∉ a' →
      a ++ c :: b = a' ++ c :: b' → a = a' ∧ b = b' := by
  intro a
  induction a with
  | nil =>
    intro a' b b' _ ha' he
    match a' with
    | [] => simpa using he
    | x :: xs =>
      simp only [List.nil_append, List.cons_append, List.cons.injEq] at he
      exact absurd (he.1 ▸ List.mem_cons_self x xs) ha'
  | cons x xs ih =>
    intro a' b b' ha ha' he
    match a' with
    | [] =>
      simp only [List.cons_append, List.nil_append, List.cons.injEq] at he
      exact absurd (he.1.symm ▸ List.mem_cons_self x xs) ha
    | y :: ys =>
      simp only [List.cons_append, List.cons.injEq] at he
      have hxs : c ∉ xs := fun hm => ha (List.mem_cons_of_mem x hm)
      have hys : c ∉ ys := fun hm => ha' (List.mem_cons_of_mem y hm)
      rcases ih ys b b' hxs hys he.2 with ⟨h1, h2⟩
      exact ⟨by rw [he.1, h1], h2⟩

/-!  ### Classification of the external HTTP call
(`generate_pdf_for_member`, export script lines 235-277, and
`send_no_play_email`, send script lines 248-291 — identical logic). -/

/-- The JSON body of a response as far as the scripts read it:
`result.get('success')` truthiness and `result.get('error')`. -/
structure RespBody where
  success : Bool
  error : Option String
deriving DecidableEq

/-- What `requests.post` can produce: a response with a status code, an
optional parsed JSON body (`none` when `response.json()` raises) and a
raw text, or one of the transport-level exceptions. -/
inductive ApiResult where
  | resp (status : Nat) (body : Option RespBody) (text : String)
  | timeout
  | connError
  | exc (msg : String)
deriving DecidableEq

/-- The `(success, error_message)` pair the scripts compute from a
response.  `jerr` renders the message of the `response.json()` decode
exception caught by the outer `except` in the 200 branch (the `str(e)`
of line 277 applied to the raw text). -/
def classify_response (jerr : String → String) (r : ApiResult) :
    Bool × Option String :=
  match r with
  | .resp status body text =>
    if status = 200 then
      match body with
      | some b =>
        if b.success then (true, none)
        else (false, some (b.error.getD "Unknown error"))
      | none => (false, some (jerr text))
    else
      match body with
      | some b => (false, some (b.error.getD ("HTTP " ++ natStr status)))
      | none =>
        (false, some (if text = "" then "HTTP " ++ natStr status else text))
  | .timeout => (false, some "Request timeout")
  | .connError => (false, some "Connection error - is the API server running?")
  | .exc msg => (false, some msg)

/-!  ### The dispatch loop of `export_statements_from_batch`
(export script lines 458-516). -/

/-- One row of `quarterly_user_statements` as the loop reads it. -/
structure StmtRecord where
  recId : Nat
  account_number : String
deriving DecidableEq

/-- The counters and bounded failure list accumulated by the loop:
`len(accounts)` (printed as "Total accounts processed"), `success_count`,
`skipped_count`, `error_count` and `errors`. -/
structure RunReport where
  processed : Nat
  succeeded : Nat
  skipped : Nat
  failed : Nat
  errors : List (String × Option String)
deriving DecidableEq

/-- One iteration of the loop (lines 470-508).  `dec` is the account
decryptor (`decrypt_account` under the ambient key, total whenever the
key configuration is well formed), `api` the external action
(`generate_pdf_for_member` with the batch dates and token fixed).  An
empty normalized account increments `error_count` (line 479); a
sanitized account already in the existing-PDF set increments
`skipped_count` (line 490); otherwise the API is called and the outcome
tallied. -/
def processRecord (dec : String → String) (api : String → Bool × Option String)
    (skip_existing : Bool) (existing : List String) (rep : RunReport)
    (r : StmtRecord) : RunReport :=
  if normalizeWith dec r.account_number = "" then
    { rep with failed := rep.failed + 1 }
  else if skip_existing &&
      (existing.contains (sanitize_account (normalizeWith dec r.account_number))) then
    { rep with skipped := rep.skipped + 1 }
  else
    match api (normalizeWith dec r.account_number) with
    | (true, _) => { rep with succeeded := rep.succeeded + 1 }
    | (false, e) =>
      { rep with
        failed := rep.failed + 1
        errors := rep.errors ++ [(normalizeWith dec r.account_number, e)] }

/-- The whole loop, starting from zeroed counters with
`processed = len(accounts)`. -/
def processBatch (dec : String → String) (api : String → Bool × Option String)
    (skip_existing : Bool) (existing : List String)
    (records : List StmtRecord) : RunReport :=
  records.foldl (processRecord dec api skip_existing existing)
    ⟨records.length, 0, 0, 0, []⟩

/-!  ### Resume-by-index (export script lines 361-368, send script lines
378-385, identical). -/

/-- The `start_from_index` filter.  Python's `if start_from_index:` is
false for `None` and for `0`, so an explicit `0` bypasses both range
checks and the slice; otherwise a value `< 1` or greater than the record
count aborts (`sys.exit(1)`, the `.error` case), and the list is sliced
from `index - 1`. -/
def resumeByIndex {α : Type} (start_from_index : Option Int) (xs : List α) :
    Except Unit (List α) :=
  match start_from_index with
  | none => .ok xs
  | some i =>
    if i = 0 then .ok xs
    else if i < 1 then .error ()
    else if i > xs.length then .error ()
    else .ok (xs.drop (i.toNat - 1))

/-!  ### Resume-by-account floor.

The spec's BatchCursor also has an account-based resume mode
(`startFromAccount`), used by the plain member-list entry point, which is
not among the three source files under `src/`.  It is modelled from the
spec below. -/

/-- Modelled from the spec: "a secondary numeric comparison mode applies
when both sides of a comparison consist only of digits (compare as
integers, not lexicographically)" — the all-digit test (Python
`str.isdigit`, false on the empty string). -/
def allDigits (s : String) : Bool :=
  !s.data.isEmpty && s.data.all (fun c => '0' ≤ c && c ≤ '9')

/-- Decimal value of an all-digit string. -/
def parseDigits (s : String) : Nat :=
  s.data.foldl (fun a c => a * 10 + (c.toNat - 48)) 0

/-- Modelled from the spec: the comparison used by the account floor —
integer comparison when both sides are all-digit, else lexicographic
string comparison. -/
def account_lt (a b : String) : Bool :=
  if allDigits a && allDigits b then decide (parseDigits a < parseDigits b)
  else decide (a < b)

/-- Modelled from the spec: `startFromAccount` "drops every leading
record whose normalized account key is strictly less than this floor";
the records carry encrypted accounts, so each key is normalized (with
the ambient decryptor `dec`) before comparison. -/
def resumeByAccount (dec : String → String) (floor : String)
    (records : List StmtRecord) : List StmtRecord :=
  records.dropWhile (fun r => account_lt (normalizeWith dec r.account_number) floor)

/-!  ### The `update_is_email_from_csv` loop
(src/services/update_is_email_no_play_statement.py lines 245-283). -/

/-- One row of `no_play_players` as the update loop reads it. -/
structure Player where
  pid : Nat
  account_number : String
  is_email : Int
deriving DecidableEq

/-- This script's `normalize_account` (lines 106-110) does not decrypt:
it only strips and removes spaces. -/
def normalizePlain (a : String) : String :=
  ⟨(pyStrip a.data).filter (fun c => c ≠ ' ')⟩

/-- The match test of lines 254-265: the decrypted-then-normalized
account, or the normalized raw (encrypted) account, appears among the
CSV accounts with `Is Email = TRUE`.  `dec` is `decrypt_account` under
the ambient key. -/
def matchedPlayer (dec : String → String) (csv : List String) (p : Player) : Bool :=
  csv.contains (normalizePlain (dec p.account_number)) ||
    csv.contains (normalizePlain p.account_number)

/-- The UPDATE commands the loop issues (lines 267-283): one per matched
player whose `is_email` is not already 1, in table order. -/
def updatesFor (dec : String → String) (csv : List String)
    (players : List Player) : List Player :=
  players.filter (fun p => matchedPlayer dec csv p && !(p.is_email = 1))

/-- The state of the table after the run: every row whose id was updated
has `is_email = 1` (the SQL `UPDATE ... SET is_email = 1 WHERE id =
%s`). -/
def applyRun (dec : String → String) (csv : List String)
    (players : List Player) : List Player :=
  players.map (fun p =>
    if ((updatesFor dec csv players).map Player.pid).contains p.pid then
      { p with is_email := 1 }
    else p)

/-!  ### Claim C9 -/

/-- C9: for every input string that is empty or does not start with one
of the recognized encryption prefixes (`ENC:`, `DENC:`),
`decrypt_account` returns the input unchanged, whatever the oracle and
the configured key. -/
theorem c9_plaintext_passthrough (o : AesOracle) (envKey : Option String)
    (s : String)
    (h : s = "" ∨ (pyStartsWith s "ENC:" = false ∧ pyStartsWith s "DENC:" = false)) :
    decrypt_account o envKey s = .ok s := by
  rcases h with h | ⟨h1, h2⟩
  · simp [decrypt_account, h]
  · by_cases hs : s = ""
    · simp [decrypt_account, hs]
    · simp [decrypt_account, hs, h1, h2]

theorem c9_witness :
    decrypt_account (fun _ _ _ => none) (some "not-a-key") "hello" = .ok "hello" :=
  c9_plaintext_passthrough (fun _ _ _ => none) (some "not-a-key") "hello"
    (Or.inr ⟨by decide, by decide⟩)

/-!  ### Claim C2 -/

/-- C2 is refuted: a configured key of exactly 64 characters that is not
valid hex makes `decrypt_account` raise (the uncaught `ValueError` of
`bytes.fromhex` in `get_encryption_key`, called outside the `try`
block), instead of returning the envelope unchanged. -/
theorem c2_counterexample :
    decrypt_account (fun _ _ _ => none)
      (some "zzzzzzzzzzzzzzzzzzzzzzzzzzzzzzzzzzzzzzzzzzzzzzzzzzzzzzzzzzzzzzzz")
      "ENC:aa:bb:cc" = .error () := by
  rfl

/-- C2 as amended: whenever the configured key is absent, empty, not of
length 64, or 64 valid hex characters, `decrypt_account` never raises,
and its output differs from the input envelope only when a complete
decryption (well-formed three-part hex envelope plus a successful cipher
call) happened. -/
theorem c2_decrypt_total (o : AesOracle) (envKey : Option String) (s : String)
    (h : keyOk envKey) :
    ∃ r, decrypt_account o envKey s = .ok r ∧
      (r = s ∨ ∃ kb iv tag ct, keyBytesOf envKey = some kb ∧
        parseEnvBody (prefixLenOf s) s = some (iv, tag, ct) ∧
        o kb iv (ct ++ tag) = some r) := by
  rw [decrypt_account_of_keyOk o envKey h s]
  refine ⟨_, rfl, ?_⟩
  unfold decryptWithKey
  by_cases h1 : s = ""
  · simp [h1]
  · rw [if_neg h1]
    by_cases h2 : (!pyStartsWith s "ENC:" && !pyStartsWith s "DENC:") = true
    · simp [h2]
    · simp only [h2, Bool.false_eq_true, if_false]
      cases hk : keyBytesOf envKey with
      | none => simp
      | some kb =>
        unfold tryDecryptBody
        cases hp : parseEnvBody (prefixLenOf s) s with
        | none => simp
        | some t3 =>
          obtain ⟨iv, tag, ct⟩ := t3
          cases ho : o kb iv (ct ++ tag) with
          | none => simp [ho]
          | some pt =>
            right
            refine ⟨kb, iv, tag, ct, rfl, rfl, ?_⟩
            simp [ho]

theorem c2_witness :
    ∃ r, decrypt_account (fun _ _ _ => none) none "ENC:zz" = .ok r ∧
      (r = "ENC:zz" ∨ ∃ kb iv tag ct, keyBytesOf none = some kb ∧
        parseEnvBody (prefixLenOf "ENC:zz") "ENC:zz" = some (iv, tag, ct) ∧
        (fun _ _ _ => (none : Option String)) kb iv (ct ++ tag) = some r) :=
  c2_decrypt_total (fun _ _ _ => none) none "ENC:zz" (fun _ hk => nomatch hk)

/-!  ### Claim C4 -/

/-- C4 is refuted at `startFromIndex = 0`: the claim says the run fails
whenever `i < 1`, but Python's `if start_from_index:` is false at 0, so
the whole list is processed with no resume-range error. -/
theorem c4_counterexample :
    (0 : Int) < 1 ∧
    resumeByIndex (some 0) [10, 20, 30] = .ok [10, 20, 30] :=
  ⟨by norm_num, rfl⟩

/-- C4 as amended: for every supplied nonzero `startFromIndex`, a value
within `[1, n]` drops exactly the first `i - 1` records keeping the rest
in order, and a value `< 1` or `> n` aborts before processing; a supplied
`0` is silently treated as no resume point at all. -/
theorem c4_resume_by_index {α : Type} (i : Int) (xs : List α) (hne : i ≠ 0) :
    (1 ≤ i → i ≤ xs.length → resumeByIndex (some i) xs = .ok (xs.drop (i.toNat - 1))) ∧
    ((i < 1 ∨ i > xs.length) → resumeByIndex (some i) xs = .error ()) := by
  constructor
  · intro h1 h2
    simp only [resumeByIndex, if_neg hne]
    rw [if_neg (by omega), if_neg (by omega)]
  · intro h
    simp only [resumeByIndex, if_neg hne]
    by_cases hlt : i < 1
    · rw [if_pos hlt]
    · rcases h with h | h
      · exact absurd h hlt
      · rw [if_neg hlt, if_pos h]

theorem c4_witness :
    resumeByIndex (some 3) [1, 2, 3, 4, 5] = .ok [3, 4, 5] ∧
    resumeByIndex (some 6) [1, 2, 3, 4, 5] = .error () := by
  constructor
  · have h := (c4_resume_by_index 3 [1, 2, 3, 4, 5] (by norm_num)).1
      (by norm_num) (by norm_num)
    simpa using h
  · exact (c4_resume_by_index 6 [1, 2, 3, 4, 5] (by norm_num)).2
      (Or.inr (by norm_num))

/-!  ### Claim C5 -/

/-- C5 is refuted: the scripts test `response.status_code == 200`
exactly, so a 201 response whose body carries the success indicator is
classified as a failure `"HTTP 201"`, not as Succeeded. -/
theorem c5_counterexample :
    200 ≤ 201 ∧ 201 < 300 ∧
    classify_response (fun t => t) (.resp 201 (some ⟨true, none⟩) "") =
      (false, some "HTTP 201") :=
  ⟨by norm_num, by norm_num, rfl⟩

/-- C5 as amended: only an exact HTTP 200 with a truthy `success` field
yields Succeeded; a 200 with a falsy indicator fails with the body's
error (or "Unknown error"); any other status — 2xx included — fails with
the body's error, else the raw text, else "HTTP <status>"; a transport
timeout fails with "Request timeout" and a connection failure with
"Connection error - is the API server running?". -/
theorem c5_classify (jerr : String → String) (status : Nat) (b : RespBody)
    (text : String) :
    (status = 200 → b.success = true →
      classify_response jerr (.resp status (some b) text) = (true, none)) ∧
    (status = 200 → b.success = false →
      classify_response jerr (.resp status (some b) text) =
        (false, some (b.error.getD "Unknown error"))) ∧
    (status ≠ 200 →
      classify_response jerr (.resp status (some b) text) =
        (false, some (b.error.getD ("HTTP " ++ natStr status)))) ∧
    (status ≠ 200 →
      classify_response jerr (.resp status none text) =
        (false, some (if text = "" then "HTTP " ++ natStr status else text))) ∧
    classify_response jerr .timeout = (false, some "Request timeout") ∧
    classify_response jerr .connError =
      (false, some "Connection error - is the API server running?") := by
  refine ⟨?_, ?_, ?_, ?_, rfl, rfl⟩
  · intro h1 h2
    simp [classify_response, h1, h2]
  · intro h1 h2
    simp [classify_response, h1, h2]
  · intro h1
    simp [classify_response, h1]
  · intro h1
    simp [classify_response, h1]

theorem c5_witness :
    classify_response (fun t => t) (.resp 200 (some ⟨true, none⟩) "") = (true, none) ∧
    classify_response (fun t => t) (.resp 500 (some ⟨false, some "boom"⟩) "") =
      (false, some "boom") ∧
    classify_response (fun t => t) .timeout = (false, some "Request timeout") := by
  refine ⟨?_, ?_, ?_⟩
  · exact (c5_classify (fun t => t) 200 ⟨true, none⟩ "").1 rfl rfl
  · have h := (c5_classify (fun t => t) 500 ⟨false, some "boom"⟩ "").2.2.1 (by norm_num)
    simpa using h
  · exact (c5_classify (fun t => t) 200 ⟨true, none⟩ "").2.2.2.2.1

/-!  ### Claim C1 -/

/-- C1 is refuted: in the batch of accounts `"001"`, `""`, `"003"` with
an always-succeeding external action (and no skip-existing set), the
record with the empty normalized account is tallied in `error_count`
(export script line 479), so the finished report is
processed=3, succeeded=2, skipped=0, failed=1 — not skipped=1, failed=0
as claimed.  The decryptor is `decrypt_account` under an unconfigured
key. -/
theorem c1_counterexample :
    processBatch (decryptWithKey (fun _ _ _ => none) none)
        (fun _ => (true, none)) false []
        [⟨1, "001"⟩, ⟨2, ""⟩, ⟨3, "003"⟩] =
      ⟨3, 2, 0, 1, []⟩ ∧
    ¬ ((processBatch (decryptWithKey (fun _ _ _ => none) none)
        (fun _ => (true, none)) false []
        [⟨1, "001"⟩, ⟨2, ""⟩, ⟨3, "003"⟩]).skipped = 1 ∧
       (processBatch (decryptWithKey (fun _ _ _ => none) none)
        (fun _ => (true, none)) false []
        [⟨1, "001"⟩, ⟨2, ""⟩, ⟨3, "003"⟩]).failed = 0) := by
  exact ⟨rfl, by decide⟩

theorem processBatch_fold (dec : String → String)
    (api : String → Bool × Option String) (ex : List String)
    (hapi : ∀ a, api a = (true, none)) :
    ∀ (records : List StmtRecord) (rep : RunReport),
      records.foldl (processRecord dec api false ex) rep =
        { rep with
          succeeded := rep.succeeded +
            records.countP (fun r => !(normalizeWith dec r.account_number == "")),
          failed := rep.failed +
            records.countP (fun r => normalizeWith dec r.account_number == "") } := by
  intro records
  induction records with
  | nil => intro rep; simp
  | cons r rs ih =>
    intro rep
    rw [List.foldl_cons, ih]
    cases rep with
    | mk p su sk f e =>
      by_cases he : normalizeWith dec r.account_number = ""
      · simp [processRecord, he, List.countP_cons, RunReport.mk.injEq]
        omega
      · simp [processRecord, he, hapi, List.countP_cons, RunReport.mk.injEq]
        omega

/-- C1 as amended: a record whose normalized account key is empty is
tallied in the failure counter (`error_count`), not the skip counter —
the per-row message says "Skipping" but the final report counts it under
"Failed".  For any batch with skip-existing disabled and an external
action that always succeeds, the report is: processed = n, succeeded =
number of records with a non-empty normalized account, skipped = 0,
failed = number of records with an empty normalized account, and the
bounded failure list stays empty (empty-account rows are not appended to
it).  In particular the 3-record scenario yields processed=3,
succeeded=2, skipped=0, failed=1. -/
theorem c1_empty_account_failed (dec : String → String)
    (api : String → Bool × Option String) (ex : List String)
    (records : List StmtRecord) (hapi : ∀ a, api a = (true, none)) :
    processBatch dec api false ex records =
      ⟨records.length,
       records.countP (fun r => !(normalizeWith dec r.account_number == "")),
       0,
       records.countP (fun r => normalizeWith dec r.account_number == ""),
       []⟩ := by
  unfold processBatch
  rw [processBatch_fold dec api ex hapi records]
  simp

theorem c1_witness :
    processBatch (decryptWithKey (fun _ _ _ => none) none)
        (fun _ => (true, none)) false []
        [⟨1, "001"⟩, ⟨2, ""⟩, ⟨3, "003"⟩] =
      ⟨3, 2, 0, 1, []⟩ := by
  have h := c1_empty_account_failed (decryptWithKey (fun _ _ _ => none) none)
    (fun _ => (true, none)) [] [⟨1, "001"⟩, ⟨2, ""⟩, ⟨3, "003"⟩] (fun _ => rfl)
  exact h.trans (by decide)

/-!  ### Claim C3 -/

theorem denc_not_enc (s : String) (h : pyStartsWith s "DENC:" = true) :
    pyStartsWith s "ENC:" = false := by
  unfold pyStartsWith at h ⊢
  cases hs : s.data with
  | nil => rw [hs] at h; simp [List.isPrefixOf] at h
  | cons c cs =>
    rw [hs] at h
    have hc : c = 'D' := by
      simp [show ("DENC:").data = 'D' :: "ENC:".data from rfl, List.isPrefixOf] at h
      exact h.1.symm
    simp [show ("ENC:").data = 'E' :: "NC:".data from rfl, List.isPrefixOf, hc]

/-- C3 is refuted: `decrypt_json` tests only for the `ENC:` prefix, so a
`DENC:`-tagged envelope is treated as unprefixed and fed straight to the
JSON parser (which fails on it), while `decrypt_account` decrypts the
same envelope to the plaintext `"X"` whose parse would succeed — the two
operations do not apply the same decryption.  The key is 64 valid hex
characters and the cipher oracle always yields `"X"`. -/
theorem c3_counterexample :
    decrypt_account (fun _ _ _ => some "X")
      (some "0000000000000000000000000000000000000000000000000000000000000000")
      "DENC:aa:bb:cc" = .ok "X" ∧
    (if "X" = "X" then some 7 else none) = some 7 ∧
    decrypt_json (fun s => if s = "X" then some (7 : Nat) else none)
      (fun _ _ _ => some "X")
      (some "0000000000000000000000000000000000000000000000000000000000000000")
      "DENC:aa:bb:cc" = .ok none := by
  exact ⟨rfl, rfl, rfl⟩

/-- C3 as amended: `decrypt_json` decrypts only `ENC:`-tagged envelopes;
a `DENC:`-tagged value is treated as unprefixed and only gets the direct
parse attempt, as does any other unprefixed non-empty value; the empty
string yields absent; and (under a key configuration that does not make
`get_encryption_key` raise) it never raises, its result being absent, a
direct parse of the raw value, or the parse of a successfully decrypted
plaintext. -/
theorem c3_decrypt_json {α : Type} (jp : String → Option α) (o : AesOracle)
    (envKey : Option String) (s : String) (h : keyOk envKey) :
    ∃ r, decrypt_json jp o envKey s = .ok r ∧
      (s = "" → r = none) ∧
      (s ≠ "" → pyStartsWith s "ENC:" = false → r = jp s) ∧
      (pyStartsWith s "DENC:" = true → r = jp s) ∧
      (r = none ∨ r = jp s ∨ ∃ kb iv tag ct pt, keyBytesOf envKey = some kb ∧
        parseEnvBody 4 s = some (iv, tag, ct) ∧ o kb iv (ct ++ tag) = some pt ∧
        r = jp pt) := by
  unfold decrypt_json
  by_cases h1 : s = ""
  · refine ⟨none, by simp [h1], fun _ => rfl, fun hne _ => absurd h1 hne, ?_, Or.inl rfl⟩
    intro hd
    rw [h1] at hd
    simp [pyStartsWith, List.isPrefixOf] at hd
  · by_cases h2 : pyStartsWith s "ENC:" = true
    · rw [if_neg h1]
      simp only [h2, Bool.not_true, Bool.false_eq_true, if_false]
      rw [get_encryption_key_of_keyOk envKey h]
      cases hk : keyBytesOf envKey with
      | none =>
        refine ⟨none, rfl, fun he => absurd he h1, ?_, ?_, Or.inl rfl⟩
        · intro _ hf; exact Bool.noConfusion hf
        · intro hd
          have hx := denc_not_enc s hd
          rw [h2] at hx
          exact Bool.noConfusion hx
      | some kb =>
        refine ⟨tryDecryptJson jp o kb s, rfl, fun he => absurd he h1, ?_, ?_, ?_⟩
        · intro _ hf; exact Bool.noConfusion hf
        · intro hd
          have hx := denc_not_enc s hd
          rw [h2] at hx
          exact Bool.noConfusion hx
        · unfold tryDecryptJson
          split
          next hp => exact Or.inl rfl
          next iv tag ct hp =>
            split
            next ho => exact Or.inl rfl
            next pt ho =>
              exact Or.inr (Or.inr ⟨kb, iv, tag, ct, pt, rfl, hp, ho, rfl⟩)
    · have h2f : pyStartsWith s "ENC:" = false := by
        cases hx : pyStartsWith s "ENC:"
        · rfl
        · exact absurd hx h2
      refine ⟨jp s, ?_, fun he => absurd he h1, fun _ _ => rfl, fun _ => rfl,
        Or.inr (Or.inl rfl)⟩
      simp [h1, h2f]

theorem c3_witness :
    ∃ r, decrypt_json (fun t => if t = "Y" then some (1 : Nat) else none)
        (fun _ _ _ => none) none "DENC:aa:bb:cc" = .ok r ∧
      ("DENC:aa:bb:cc" = "" → r = none) ∧
      ("DENC:aa:bb:cc" ≠ "" → pyStartsWith "DENC:aa:bb:cc" "ENC:" = false →
        r = (fun t => if t = "Y" then some (1 : Nat) else none) "DENC:aa:bb:cc") ∧
      (pyStartsWith "DENC:aa:bb:cc" "DENC:" = true →
        r = (fun t => if t = "Y" then some (1 : Nat) else none) "DENC:aa:bb:cc") ∧
      (r = none ∨
        r = (fun t => if t = "Y" then some (1 : Nat) else none) "DENC:aa:bb:cc" ∨
        ∃ kb iv tag ct pt, keyBytesOf none = some kb ∧
          parseEnvBody 4 "DENC:aa:bb:cc" = some (iv, tag, ct) ∧
          (fun _ _ _ => (none : Option String)) kb iv (ct ++ tag) = some pt ∧
          r = (fun t => if t = "Y" then some (1 : Nat) else none) pt) :=
  c3_decrypt_json (fun t => if t = "Y" then some (1 : Nat) else none)
    (fun _ _ _ => none) none "DENC:aa:bb:cc" (fun _ hk => nomatch hk)

/-!  ### Claim C8 -/

/-- C8 (the account-resume mode is modelled from the spec, its script
not being under src/): the cursor splits the batch into a dropped prefix
whose normalized keys are all strictly below the floor and the retained
suffix, in original order; the first retained record is not below the
floor; and the comparison is numeric when both sides are all-digit
(`"9" < "10"`), never the lexicographic `"10" < "9"`. -/
theorem mem_takeWhile_pred {α : Type} (p : α → Bool) :
    ∀ (l : List α) (a : α), a ∈ l.takeWhile p → p a = true := by
  intro l
  induction l with
  | nil => intro a ha; simp [List.takeWhile] at ha
  | cons x xs ih =>
    intro a ha
    rw [List.takeWhile_cons] at ha
    by_cases hp : p x = true
    · rw [if_pos hp] at ha
      rcases List.mem_cons.mp ha with h | h
      · rw [h]; exact hp
      · exact ih a h
    · rw [if_neg hp] at ha
      cases ha

theorem dropWhile_head_false {α : Type} (p : α → Bool) :
    ∀ (l : List α) (hd : α) (tl : List α),
      l.dropWhile p = hd :: tl → p hd = false := by
  intro l
  induction l with
  | nil => intro hd tl h; simp [List.dropWhile] at h
  | cons x xs ih =>
    intro hd tl h
    rw [List.dropWhile_cons] at h
    by_cases hp : p x = true
    · rw [if_pos hp] at h
      exact ih hd tl h
    · rw [if_neg hp] at h
      have hx : x = hd := (List.cons.injEq x xs hd tl ▸ h).1
      rw [← hx]
      cases hb : p x with
      | false => rfl
      | true => exact absurd hb hp

theorem c8_resume_by_account (dec : String → String) (floor : String)
    (records : List StmtRecord) :
    (∃ pre, records = pre ++ resumeByAccount dec floor records ∧
      ∀ r ∈ pre, account_lt (normalizeWith dec r.account_number) floor = true) ∧
    (∀ hd tl, resumeByAccount dec floor records = hd :: tl →
      account_lt (normalizeWith dec hd.account_number) floor = false) ∧
    account_lt "9" "10" = true ∧ account_lt "10" "9" = false := by
  refine ⟨⟨records.takeWhile
      (fun r => account_lt (normalizeWith dec r.account_number) floor),
      ?_, ?_⟩, ?_, by decide, by decide⟩
  · exact (List.takeWhile_append_dropWhile _ _).symm
  · intro r hr
    exact mem_takeWhile_pred _ records r hr
  · intro hd tl he
    exact dropWhile_head_false _ records hd tl he

theorem c8_witness :
    (∃ pre, ([⟨1, "9"⟩, ⟨2, "10"⟩] : List StmtRecord) =
        pre ++ resumeByAccount (fun s => s) "10" [⟨1, "9"⟩, ⟨2, "10"⟩] ∧
      ∀ r ∈ pre,
        account_lt (normalizeWith (fun s => s) r.account_number) "10" = true) ∧
    (∀ hd tl, resumeByAccount (fun s => s) "10"
        ([⟨1, "9"⟩, ⟨2, "10"⟩] : List StmtRecord) = hd :: tl →
      account_lt (normalizeWith (fun s => s) hd.account_number) "10" = false) ∧
    account_lt "9" "10" = true ∧ account_lt "10" "9" = false :=
  c8_resume_by_account (fun s => s) "10" [⟨1, "9"⟩, ⟨2, "10"⟩]

/-!  ### Claim C10 -/

theorem updatesFor_mem (dec : String → String) (csv : List String)
    (players : List Player) (p : Player) :
    p ∈ updatesFor dec csv players ↔
      p ∈ players ∧ matchedPlayer dec csv p = true ∧ p.is_email ≠ 1 := by
  unfold updatesFor
  rw [List.mem_filter]
  simp

/-- C10: a matched player whose `is_email` already equals 1 generates no
UPDATE command; every UPDATE issued is for a matched row with
`is_email ≠ 1` and sets it to exactly 1 (so after the run every matched
row carries 1); and re-running on the resulting table issues zero
UPDATEs. -/
theorem c10_update_idempotent (dec : String → String) (csv : List String)
    (players : List Player) :
    (∀ p, matchedPlayer dec csv p = true → p.is_email = 1 →
      p ∉ updatesFor dec csv players) ∧
    (∀ p ∈ updatesFor dec csv players,
      matchedPlayer dec csv p = true ∧ p.is_email ≠ 1) ∧
    (∀ p ∈ applyRun dec csv players,
      matchedPlayer dec csv p = true → p.is_email = 1) ∧
    updatesFor dec csv (applyRun dec csv players) = [] := by
  have h3 : ∀ p ∈ applyRun dec csv players,
      matchedPlayer dec csv p = true → p.is_email = 1 := by
    intro p hp hm
    unfold applyRun at hp
    rw [List.mem_map] at hp
    obtain ⟨q, hq, he⟩ := hp
    cases hc : ((updatesFor dec csv players).map Player.pid).contains q.pid with
    | true =>
      rw [hc] at he
      simp only [if_true] at he
      rw [← he]
    | false =>
      rw [hc] at he
      simp only [Bool.false_eq_true, if_false] at he
      subst he
      by_contra hne
      have hqup : q ∈ updatesFor dec csv players :=
        (updatesFor_mem dec csv players q).mpr ⟨hq, hm, hne⟩
      have hmem : q.pid ∈ (updatesFor dec csv players).map Player.pid :=
        List.mem_map_of_mem Player.pid hqup
      have hcontains : ((updatesFor dec csv players).map Player.pid).contains q.pid
          = true := by simpa using hmem
      rw [hc] at hcontains
      exact Bool.noConfusion hcontains
  refine ⟨?_, ?_, h3, ?_⟩
  · intro p hm h1 hmem
    rcases (updatesFor_mem dec csv players p).mp hmem with ⟨_, _, hne⟩
    exact hne h1
  · intro p hp
    exact ((updatesFor_mem dec csv players p).mp hp).2
  · unfold updatesFor
    rw [List.filter_eq_nil_iff]
    intro p hp
    intro hpred
    rw [Bool.and_eq_true] at hpred
    have hm : matchedPlayer dec csv p = true := hpred.1
    have h1 : p.is_email = 1 := h3 p hp hm
    simp [h1] at hpred

theorem c10_witness :
    updatesFor (fun s => s) ["1234"]
      (applyRun (fun s => s) ["1234"]
        [⟨1, " 12 34 ", 0⟩, ⟨2, "77", 1⟩]) = [] :=
  (c10_update_idempotent (fun s => s) ["1234"]
    [⟨1, " 12 34 ", 0⟩, ⟨2, "77", 1⟩]).2.2.2

/-!  ### Claims C6 and C7: shared facts about the artifact filename. -/

/-- The characters of the filename body (the stem, without `.pdf`). -/
def bodyChars (quarter year : Nat) (account : String) : List Char :=
  "Statement".data ++
    '_' :: (('Q' :: natChars quarter) ++
      '_' :: (natChars year ++ '_' :: sanitizeChars account))

theorem expectedFilename_data (quarter year : Nat) (account : String) :
    (expectedFilename quarter year account).data =
      bodyChars quarter year account ++ ".pdf".data := by
  unfold expectedFilename bodyChars
  simp only [String.data_append, natStr, sanitize_account]
  simp [List.append_assoc, List.cons_append]

theorem bodyChars_split (quarter year : Nat) (account : String)
    (hu : '_' ∉ sanitizeChars account) :
    pySplitChar '_' (bodyChars quarter year account) =
      ["Statement".data, 'Q' :: natChars quarter, natChars year,
        sanitizeChars account] := by
  unfold bodyChars
  rw [pySplitChar_append_cons '_' _ _ (by decide)]
  rw [pySplitChar_append_cons '_' _ _ (by
    intro hm
    rcases List.mem_cons.mp hm with h | h
    · exact absurd h.symm (by decide)
    · exact natChars_no_underscore quarter h)]
  rw [pySplitChar_append_cons '_' _ _ (natChars_no_underscore year)]
  rw [pySplitChar_no_sep '_' _ hu]

theorem accountFromFilename_expected (quarter year : Nat) (account : String)
    (hu : '_' ∉ sanitizeChars account) :
    accountFromFilename (expectedFilename quarter year account) =
      some (sanitize_account account) := by
  unfold accountFromFilename
  rw [expectedFilename_data]
  have hlen : (bodyChars quarter year account ++ ".pdf".data).length =
      (bodyChars quarter year account).length + 4 := by
    simp [List.length_append]
  rw [hlen]
  have htake : (bodyChars quarter year account ++ ".pdf".data).take
      ((bodyChars quarter year account).length + 4 - 4) =
      bodyChars quarter year account := by
    rw [show (bodyChars quarter year account).length + 4 - 4 =
      (bodyChars quarter year account).length from by omega]
    exact List.take_left _ _
  rw [htake, bodyChars_split quarter year account hu]
  simp [sanitize_account]

theorem isPrefixOf_self_append : ∀ (a b : List Char), a.isPrefixOf (a ++ b) = true
  | [], _ => by simp [List.isPrefixOf]
  | x :: xs, b => by simp [List.isPrefixOf, isPrefixOf_self_append xs b]

theorem isSuffixOf_append_self (a b : List Char) : b.isSuffixOf (a ++ b) = true := by
  unfold List.isSuffixOf
  rw [List.reverse_append]
  exact isPrefixOf_self_append b.reverse a.reverse

theorem globStatementPdf_expected (quarter year : Nat) (account : String) :
    globStatementPdf (expectedFilename quarter year account) = true := by
  unfold globStatementPdf pyStartsWith pyEndsWith
  rw [expectedFilename_data]
  refine Bool.and_eq_true _ _ |>.mpr ⟨Bool.and_eq_true _ _ |>.mpr ⟨?_, ?_⟩, ?_⟩
  · unfold bodyChars
    have hsplit : "Statement".data ++
        '_' :: (('Q' :: natChars quarter) ++
          '_' :: (natChars year ++ '_' :: sanitizeChars account)) ++ ".pdf".data =
        "Statement_Q".data ++
          (natChars quarter ++
            '_' :: (natChars year ++ '_' :: sanitizeChars account) ++ ".pdf".data) := by
      simp [List.append_assoc, List.cons_append]
    rw [hsplit]
    exact isPrefixOf_self_append _ _
  · exact isSuffixOf_append_self _ _
  · rw [decide_eq_true_eq, ← String.length_data, expectedFilename_data]
    unfold bodyChars
    simp [List.length_append]
    omega

theorem sanitize_mem_scanExisting (quarter year : Nat) (account : String)
    (files : List String) (hu : '_' ∉ sanitizeChars account)
    (hf : expectedFilename quarter year account ∈ files) :
    sanitize_account account ∈ scanExisting files := by
  unfold scanExisting
  rw [List.mem_filterMap]
  exact ⟨expectedFilename quarter year account,
    List.mem_filter.mpr ⟨hf, globStatementPdf_expected quarter year account⟩,
    accountFromFilename_expected quarter year account hu⟩

/-- C6 is refuted: the sanitized alphabet `[A-Za-z0-9_-]` admits the
underscore, and for the account `"A_1"` the filename-parsing rule (split
the stem on `_` and take the final segment) recovers `"1"`, not the
sanitized account `"A_1"`; consequently, even though the expected
artifact is in the scanned folder, a dispatch with skip-existing enabled
does not skip this account — it proceeds to call the external action. -/
theorem c6_counterexample :
    accountFromFilename (expectedFilename 1 7 "A_1") = some "1" ∧
    sanitize_account "A_1" = "A_1" ∧
    processBatch (decryptWithKey (fun _ _ _ => none) none)
      (fun _ => (true, none)) true
      (scanExisting [expectedFilename 1 7 "A_1"]) [⟨0, "A_1"⟩] =
      ⟨1, 1, 0, 0, []⟩ := by
  exact ⟨by decide, by decide, by decide⟩

/-- C6 as amended: the filename round-trip recovers the sanitized
account exactly whenever that sanitized account contains no underscore;
for such accounts, if the expected artifact's filename is in the scanned
folder listing, the sanitized account is in the `scanExisting` set and a
skip-existing dispatch of a record normalizing to that account produces
one Skipped outcome with no external call (the report is the same for
every possible external action `api`). -/
theorem c6_skip_existing (dec : String → String)
    (api : String → Bool × Option String) (r : StmtRecord) (a : String)
    (quarter year : Nat) (files : List String)
    (hnorm : normalizeWith dec r.account_number = a) (hne : a ≠ "")
    (hu : '_' ∉ sanitizeChars a)
    (hf : expectedFilename quarter year a ∈ files) :
    sanitize_account a ∈ scanExisting files ∧
    processBatch dec api true (scanExisting files) [r] = ⟨1, 0, 1, 0, []⟩ := by
  have hmem := sanitize_mem_scanExisting quarter year a files hu hf
  refine ⟨hmem, ?_⟩
  unfold processBatch
  rw [List.foldl_cons, List.foldl_nil]
  unfold processRecord
  rw [hnorm]
  rw [if_neg hne]
  simp [hmem]

theorem c6_witness :
    sanitize_account "A1" ∈ scanExisting [expectedFilename 1 7 "A1"] ∧
    processBatch (fun s => s) (fun _ => (true, none)) true
      (scanExisting [expectedFilename 1 7 "A1"]) [⟨0, "A1"⟩] =
      ⟨1, 0, 1, 0, []⟩ :=
  c6_skip_existing (fun s => s) (fun _ => (true, none)) ⟨0, "A1"⟩ "A1" 1 7
    [expectedFilename 1 7 "A1"] (by decide) (by decide) (by decide)
    (List.mem_singleton.mpr rfl)

/-!  ### Claim C7 -/

/-- C7: `get_expected_pdf_path` is a pure function of (account, quarter,
year) implementing the sanitize-then-format derivation, and it is
injective on (sanitized account, quarter, year): two calls under the
same root yield the same path only if the sanitized accounts, quarters
and years all coincide. -/
theorem c7_expected_path_injective (a1 a2 : String) (q1 q2 y1 y2 : Nat)
    (u : String)
    (h : get_expected_pdf_path a1 q1 y1 u = get_expected_pdf_path a2 q2 y2 u) :
    sanitize_account a1 = sanitize_account a2 ∧ q1 = q2 ∧ y1 = y2 := by
  unfold get_expected_pdf_path at h
  simp only [List.cons.injEq, and_true, true_and] at h
  obtain ⟨hfold, hfile⟩ := h
  have hfd := congrArg String.data hfold
  simp only [String.data_append, natStr] at hfd
  simp only [List.append_assoc, List.cons_append, List.nil_append,
    List.cons.injEq, true_and] at hfd
  obtain ⟨hq, hy⟩ := sep_split '-' _ _ _ _ (natChars_no_dash q1)
    (natChars_no_dash q2) hfd
  have hq2 := natChars_inj q1 q2 hq
  have hy2 := natChars_inj y1 y2 hy
  subst hq2
  subst hy2
  refine ⟨?_, rfl, rfl⟩
  have hfd2 := congrArg String.data hfile
  simp only [String.data_append, natStr, sanitize_account] at hfd2
  simp only [List.append_assoc, List.cons_append, List.nil_append,
    List.cons.injEq, true_and, List.append_cancel_left_eq] at hfd2
  have hsan : sanitizeChars a1 = sanitizeChars a2 :=
    List.append_cancel_right hfd2
  exact congrArg String.mk hsan

theorem c7_witness :
    sanitize_account "A" = sanitize_account "A?" ∧ 1 = 1 ∧ 7 = 7 :=
  c7_expected_path_injective "A" "A?" 1 1 7 7 "uploads" (by decide)

end SkyCity
